import Mathlib

/-!
Shallow embedding of `src/coturn_loadbalancer.py`.

The Python program keeps two pieces of global mutable state:
`turn_server : Optional[str]` (the currently selected TURN endpoint) and
`turn_data : Dict[str, dict]` (one health record per endpoint).  Here the
health record is `ServerData`, the pair of globals is `LBState`, and each
Python function that mutates the globals becomes a Lean function from state
to state.  Python `None` is modelled by `Option.none`; an uncaught Python
exception is modelled by an `Option.none` result of the state-transforming
function.  `random.choice` is modelled by an arbitrary `pick` function
together with the soundness hypothesis `pickSound` (it returns a member of
any non-empty list).  Python floats are modelled exactly, as rationals.
-/

/-- One endpoint's record in `turn_data`: the Python dict
`dict(initial=0, success_th=success_th, failed_checks=None, healthy=None)`
built in `HealthCheck.run` (src lines 141-144). -/
structure ServerData where
  initial : Int
  success_th : Int
  failed_checks : Option Int
  healthy : Option Bool
  deriving Repr, DecidableEq

/-- The `update 'failed_checks' value` half of `HealthCheck.process_health_check`
(src lines 79-106).  The `none` result models the `TypeError` Python would
raise when `failed_checks` is `None` while `healthy` is already set
(ordering or arithmetic on `None`); the program never produces that state. -/
def update_failed_checks (d : ServerData) (healthcheck_passed : Bool) : Option ServerData :=
  match d.healthy with
  | none =>
      if healthcheck_passed then some { d with failed_checks := some 0 }
      else some { d with failed_checks := some d.success_th }
  | some h =>
      match d.failed_checks with
      | none => none
      | some fc =>
          if healthcheck_passed then
            if fc = d.initial then some d
            else if h = true ∧ fc > d.initial then some { d with failed_checks := some d.initial }
            else some { d with failed_checks := some (fc - 1) }
          else
            if fc = d.success_th then some d
            else if h = false ∧ fc < d.success_th then some { d with failed_checks := some d.success_th }
            else some { d with failed_checks := some (fc + 1) }

/-- The `update 'healthy' value` half of `HealthCheck.process_health_check`
(src lines 107-115).  Setting `healthy` when it already has that value is
idempotent, so the `if not ... is True` logging guards do not appear. -/
def update_healthy (d : ServerData) : ServerData :=
  if d.failed_checks = some 0 then { d with healthy := some true }
  else if d.failed_checks = some d.success_th then { d with healthy := some false }
  else d

/-- `HealthCheck.process_health_check` (src lines 76-115), restricted to the
per-endpoint record it mutates; the trailing `check_current_server` call is
modelled separately since it touches the other global. -/
def process_health_check (d : ServerData) (healthcheck_passed : Bool) : Option ServerData :=
  (update_failed_checks d healthcheck_passed).map update_healthy

/-- Folding `process_health_check` over a finite sequence of probe results,
one probe per health-check cycle. -/
def run_checks (d : ServerData) : List Bool → Option ServerData
  | [] => some d
  | p :: ps =>
      match process_health_check d p with
      | none => none
      | some d' => run_checks d' ps

/-- A fully healthy record with threshold `N`: `failed_checks` 0, `healthy` True. -/
def healthyState (N : Nat) : ServerData := ⟨0, (N : Int), some 0, some true⟩

/-- A fully unhealthy record with threshold `N`: `failed_checks` N, `healthy` False. -/
def unhealthyState (N : Nat) : ServerData := ⟨0, (N : Int), some (N : Int), some false⟩

/-- The record as `HealthCheck.run` initialises it (src lines 141-144). -/
def initState (N : Nat) : ServerData := ⟨0, (N : Int), none, none⟩

theorem run_checks_append (l₁ l₂ : List Bool) :
    ∀ d : ServerData, run_checks d (l₁ ++ l₂) =
      (run_checks d l₁).bind fun d' => run_checks d' l₂ := by
  induction l₁ with
  | nil => intro d; simp [run_checks]
  | cons p rest ih =>
      intro d
      simp only [List.cons_append, run_checks]
      cases h : process_health_check d p with
      | none => simp
      | some d' => simp [ih d']

theorem run_checks_singleton (d : ServerData) (p : Bool) :
    run_checks d [p] = process_health_check d p := by
  cases h : process_health_check d p with
  | none => simp [run_checks, h]
  | some d' => simp [run_checks, h]

theorem fail_step_healthy (N : Nat) (k : Nat) (hk : k < N) :
    process_health_check ⟨0, (N : Int), some (k : Int), some true⟩ false =
      some ⟨0, (N : Int), some ((k : Int) + 1),
            some (decide ((k : Int) + 1 < (N : Int)))⟩ := by
  have h1 : ¬ ((k : Int) = (N : Int)) := by omega
  have h2 : ¬ ((k : Int) + 1 = 0) := by omega
  by_cases h3 : (k : Int) + 1 = (N : Int)
  · simp [process_health_check, update_failed_checks, update_healthy, h1, h2, h3]
    all_goals omega
  · simp [process_health_check, update_failed_checks, update_healthy, h1, h2, h3]
    all_goals omega

theorem run_fail_interior (N : Nat) :
    ∀ k : Nat, k < N →
      run_checks (healthyState N) (List.replicate k false) =
        some ⟨0, (N : Int), some (k : Int), some true⟩ := by
  intro k
  induction k with
  | zero => intro _; simp [run_checks, healthyState]
  | succ k ih =>
      intro hk
      rw [List.replicate_succ', run_checks_append, ih (by omega)]
      have hstep := fail_step_healthy N k (by omega)
      have hlt : ((k : Int) + 1 < (N : Int)) := by omega
      simp [run_checks_singleton, hstep, hlt]

theorem run_fail_full (N : Nat) (hN : 0 < N) :
    run_checks (healthyState N) (List.replicate N false) =
      some ⟨0, (N : Int), some (N : Int), some false⟩ := by
  obtain ⟨M, rfl⟩ : ∃ M, N = M + 1 := ⟨N - 1, by omega⟩
  rw [List.replicate_succ', run_checks_append, run_fail_interior (M + 1) M (by omega),
      Option.some_bind, run_checks_singleton]
  have h1 : ¬ ((M : Int) = ((M + 1 : Nat) : Int)) := by omega
  have h2 : ¬ ((M : Int) + 1 = 0) := by omega
  simp [process_health_check, update_failed_checks, update_healthy, h1, h2]

theorem success_step_healthy (N : Nat) (fc : Int) (h0 : 0 ≤ fc) :
    process_health_check ⟨0, (N : Int), some fc, some true⟩ true =
      some ⟨0, (N : Int), some 0, some true⟩ := by
  by_cases hz : fc = 0
  · simp [process_health_check, update_failed_checks, update_healthy, hz]
  · have hpos : fc > 0 := by omega
    simp [process_health_check, update_failed_checks, update_healthy, hz, hpos]

theorem success_step_unhealthy (N : Nat) (k : Nat) (hk : k + 1 < N) :
    process_health_check ⟨0, (N : Int), some ((N : Int) - (k : Int)), some false⟩ true =
      some ⟨0, (N : Int), some ((N : Int) - ((k : Int) + 1)), some false⟩ := by
  have h1 : ¬ ((N : Int) - (k : Int) = 0) := by omega
  have h2 : ¬ ((N : Int) - (k : Int) - 1 = 0) := by omega
  have h3 : ¬ ((N : Int) - (k : Int) - 1 = (N : Int)) := by omega
  simp [process_health_check, update_failed_checks, update_healthy, h1, h2, h3]
  all_goals omega

theorem run_success_interior (N : Nat) :
    ∀ k : Nat, k < N →
      run_checks (unhealthyState N) (List.replicate k true) =
        some ⟨0, (N : Int), some ((N : Int) - (k : Int)), some false⟩ := by
  intro k
  induction k with
  | zero => intro _; simp [run_checks, unhealthyState]
  | succ k ih =>
      intro hk
      rw [List.replicate_succ', run_checks_append, ih (by omega)]
      have hstep := success_step_unhealthy N k (by omega)
      simp [run_checks_singleton, hstep]

theorem run_success_full (N : Nat) (hN : 0 < N) :
    run_checks (unhealthyState N) (List.replicate N true) =
      some ⟨0, (N : Int), some 0, some true⟩ := by
  obtain ⟨M, rfl⟩ : ∃ M, N = M + 1 := ⟨N - 1, by omega⟩
  rw [List.replicate_succ', run_checks_append, run_success_interior (M + 1) M (by omega),
      Option.some_bind, run_checks_singleton]
  have h1 : ((M + 1 : Nat) : Int) - (M : Int) = 1 := by omega
  rw [h1]
  have h2 : ¬ ((1 : Int) = 0) := by omega
  simp [process_health_check, update_failed_checks, update_healthy, h2]

theorem fail_step_unhealthy (N : Nat) (hN : 0 < N) (fc : Int) (hfc : fc ≤ (N : Int)) :
    process_health_check ⟨0, (N : Int), some fc, some false⟩ false =
      some ⟨0, (N : Int), some (N : Int), some false⟩ := by
  have hz : ¬ ((N : Int) = 0) := by omega
  by_cases he : fc = (N : Int)
  · subst he
    simp [process_health_check, update_failed_checks, update_healthy, hz]
  · have hlt : fc < (N : Int) := by omega
    simp [process_health_check, update_failed_checks, update_healthy, he, hlt, hz]

/-- C1.  Hysteresis exactness of `process_health_check` for a configured
positive threshold `N`: from a fully Healthy record, exactly `N` consecutive
failed probes produce the Unhealthy record; any run of `k < N` failures
followed by one successful probe leaves the record Healthy with
`failed_checks` reset to 0.  Symmetrically, from the fully Unhealthy record
(`failed_checks = N`), exactly `N` consecutive successful probes produce the
Healthy record, and `k < N` successes followed by a failed probe reset
`failed_checks` to `N` with the status still Unhealthy. -/
theorem C1_hysteresis_exact (N k : Nat) (hN : 0 < N) (hk : k < N) :
    run_checks (healthyState N) (List.replicate N false) =
      some ⟨0, (N : Int), some (N : Int), some false⟩ ∧
    run_checks (healthyState N) (List.replicate k false ++ [true]) =
      some ⟨0, (N : Int), some 0, some true⟩ ∧
    run_checks (unhealthyState N) (List.replicate N true) =
      some ⟨0, (N : Int), some 0, some true⟩ ∧
    run_checks (unhealthyState N) (List.replicate k true ++ [false]) =
      some ⟨0, (N : Int), some (N : Int), some false⟩ := by
  refine ⟨run_fail_full N hN, ?_, run_success_full N hN, ?_⟩
  · rw [run_checks_append, run_fail_interior N k hk]
    simp [run_checks_singleton, success_step_healthy N (k : Int) (by omega)]
  · rw [run_checks_append, run_success_interior N k hk]
    simp [run_checks_singleton, fail_step_unhealthy N hN ((N : Int) - (k : Int)) (by omega)]

/-- Witness for C1 at the spec's example threshold 3 with a 2-long contrary run. -/
theorem C1_hysteresis_exact_witness :
    run_checks (healthyState 3) (List.replicate 3 false) =
      some ⟨0, 3, some 3, some false⟩ ∧
    run_checks (healthyState 3) (List.replicate 2 false ++ [true]) =
      some ⟨0, 3, some 0, some true⟩ ∧
    run_checks (unhealthyState 3) (List.replicate 3 true) =
      some ⟨0, 3, some 0, some true⟩ ∧
    run_checks (unhealthyState 3) (List.replicate 2 true ++ [false]) =
      some ⟨0, 3, some 3, some false⟩ :=
  C1_hysteresis_exact 3 2 (by decide) (by decide)

/-- C2 as stated is false: starting from a determined, fully Healthy record
with threshold 2, one application of `process_health_check` with a failed
probe yields `failed_checks = 1` while `healthy` is still `True`, so
`failed_checks == 0 ⟺ healthy == True` does not hold after the update. -/
theorem C2_counterexample :
    process_health_check ⟨0, 2, some 0, some true⟩ false =
      some ⟨0, 2, some 1, some true⟩ ∧
    ¬ ((ServerData.mk 0 2 (some 1) (some true)).failed_checks = some 0 ↔
       (ServerData.mk 0 2 (some 1) (some true)).healthy = some true) := by
  constructor
  · decide
  · decide

theorem update_failed_checks_success_th (d : ServerData) (p : Bool) (e : ServerData)
    (h : update_failed_checks d p = some e) : e.success_th = d.success_th := by
  rcases d with ⟨ini, th, ofc, oh⟩
  rcases oh with _ | hb
  · cases p <;> simp [update_failed_checks] at h <;> subst h <;> rfl
  · rcases ofc with _ | fc
    · simp [update_failed_checks] at h
    · cases p <;> simp only [update_failed_checks] at h <;> split_ifs at h <;>
        (simp only [Option.some.injEq] at h; subst h; rfl)

/-- C2, amended.  The biconditionals fail in the damping zone, but after
every application of the hysteresis rule the one-directional versions hold:
`failed_checks = 0` forces status Healthy, `failed_checks = successThreshold`
forces status Unhealthy, a Healthy status excludes
`failed_checks = successThreshold`, and an Unhealthy status excludes
`failed_checks = 0`. -/
theorem C2_amended_invariant (d : ServerData) (p : Bool) (d' : ServerData)
    (hth : 0 < d.success_th)
    (h : process_health_check d p = some d') :
    (d'.failed_checks = some 0 → d'.healthy = some true) ∧
    (d'.failed_checks = some d.success_th → d'.healthy = some false) ∧
    (d'.healthy = some true → d'.failed_checks ≠ some d.success_th) ∧
    (d'.healthy = some false → d'.failed_checks ≠ some 0) := by
  unfold process_health_check at h
  cases he : update_failed_checks d p with
  | none => rw [he] at h; simp at h
  | some e =>
      rw [he] at h
      simp only [Option.map_some', Option.some.injEq] at h
      have hthe : e.success_th = d.success_th := update_failed_checks_success_th d p e he
      subst h
      unfold update_healthy
      split_ifs with h1 h2
      · refine ⟨fun _ => rfl, fun hc => ?_, fun _ hc => ?_, fun hb => ?_⟩
        · exfalso
          have hc' : e.failed_checks = some d.success_th := hc
          rw [h1] at hc'
          have := Option.some.inj hc'
          omega
        · have hc' : e.failed_checks = some d.success_th := hc
          rw [h1] at hc'
          have := Option.some.inj hc'
          omega
        · exact absurd (show (some true : Option Bool) = some false from hb) (by simp)
      · refine ⟨fun hc => ?_, fun _ => rfl, fun hb => ?_, fun _ hc => ?_⟩
        · exact absurd (show e.failed_checks = some 0 from hc) h1
        · exact absurd (show (some false : Option Bool) = some true from hb) (by simp)
        · exact h1 (show e.failed_checks = some 0 from hc)
      · refine ⟨fun hc => absurd hc h1, fun hc => ?_, fun _ hc => ?_, fun _ hc => h1 hc⟩
        · exact absurd (by rw [hthe]; exact hc) h2
        · exact absurd (by rw [hthe]; exact hc) h2

/-- Witness for the amended C2: the damping-zone record (threshold 2,
counter 1, Healthy) hit by one more failed probe. -/
theorem C2_amended_invariant_witness :
    ((ServerData.mk 0 2 (some 2) (some false)).failed_checks = some 0 →
      (ServerData.mk 0 2 (some 2) (some false)).healthy = some true) ∧
    ((ServerData.mk 0 2 (some 2) (some false)).failed_checks =
        some (ServerData.mk 0 2 (some 1) (some true)).success_th →
      (ServerData.mk 0 2 (some 2) (some false)).healthy = some false) ∧
    ((ServerData.mk 0 2 (some 2) (some false)).healthy = some true →
      (ServerData.mk 0 2 (some 2) (some false)).failed_checks ≠
        some (ServerData.mk 0 2 (some 1) (some true)).success_th) ∧
    ((ServerData.mk 0 2 (some 2) (some false)).healthy = some false →
      (ServerData.mk 0 2 (some 2) (some false)).failed_checks ≠ some 0) :=
  C2_amended_invariant ⟨0, 2, some 1, some true⟩ false ⟨0, 2, some 2, some false⟩
    (by decide) (by decide)

/-- The invariant maintained by the health-check loop for one endpoint with
configured threshold `N`: `initial` is 0, `success_th` is `N`, the status is
determined and the counter is a set integer in `[0, N]`. -/
def healthInv (N : Nat) (d : ServerData) : Prop :=
  ∃ fc b, d = ⟨0, (N : Int), some fc, some b⟩ ∧ 0 ≤ fc ∧ fc ≤ (N : Int)

theorem healthInv_step (N : Nat) (hN : 0 < N) (d : ServerData) (hd : healthInv N d) (p : Bool) :
    ∃ d', process_health_check d p = some d' ∧ healthInv N d' := by
  obtain ⟨fc, b, rfl, hfc0, hfcN⟩ := hd
  cases p
  · by_cases h1 : fc = (N : Int)
    · refine ⟨⟨0, (N : Int), some (N : Int), some false⟩, ?_, (N : Int), false, rfl, by omega, by omega⟩
      have hz : ¬ ((N : Int) = 0) := by omega
      simp [process_health_check, update_failed_checks, update_healthy, h1, hz]
    · cases b
      · refine ⟨⟨0, (N : Int), some (N : Int), some false⟩, ?_, (N : Int), false, rfl, by omega, by omega⟩
        have h2 : fc < (N : Int) := by omega
        have hz : ¬ ((N : Int) = 0) := by omega
        simp [process_health_check, update_failed_checks, update_healthy, h1, h2, hz]
      · by_cases h3 : fc + 1 = (N : Int)
        · refine ⟨⟨0, (N : Int), some (fc + 1), some false⟩, ?_, fc + 1, false, rfl, by omega, by omega⟩
          have h4 : ¬ (fc + 1 = 0) := by omega
          simp [process_health_check, update_failed_checks, update_healthy, h1, h3, h4]
          all_goals omega
        · refine ⟨⟨0, (N : Int), some (fc + 1), some true⟩, ?_, fc + 1, true, rfl, by omega, by omega⟩
          have h4 : ¬ (fc + 1 = 0) := by omega
          simp [process_health_check, update_failed_checks, update_healthy, h1, h3, h4]
  · by_cases h1 : fc = 0
    · refine ⟨⟨0, (N : Int), some 0, some true⟩, ?_, 0, true, rfl, by omega, by omega⟩
      simp [process_health_check, update_failed_checks, update_healthy, h1]
    · cases b
      · by_cases h3 : fc - 1 = 0
        · refine ⟨⟨0, (N : Int), some (fc - 1), some true⟩, ?_, fc - 1, true, rfl, by omega, by omega⟩
          simp [process_health_check, update_failed_checks, update_healthy, h1, h3]
        · have h4 : ¬ (fc - 1 = (N : Int)) := by omega
          refine ⟨⟨0, (N : Int), some (fc - 1), some false⟩, ?_, fc - 1, false, rfl, by omega, by omega⟩
          simp [process_health_check, update_failed_checks, update_healthy, h1, h3, h4]
      · refine ⟨⟨0, (N : Int), some 0, some true⟩, ?_, 0, true, rfl, by omega, by omega⟩
        have h2 : fc > 0 := by omega
        simp [process_health_check, update_failed_checks, update_healthy, h1, h2]

theorem run_healthInv (N : Nat) (hN : 0 < N) :
    ∀ (ps : List Bool) (d : ServerData), healthInv N d →
      ∃ d', run_checks d ps = some d' ∧ healthInv N d' := by
  intro ps
  induction ps with
  | nil => intro d hd; exact ⟨d, rfl, hd⟩
  | cons p rest ih =>
      intro d hd
      obtain ⟨d₁, h₁, hinv₁⟩ := healthInv_step N hN d hd p
      obtain ⟨d', h', hinv'⟩ := ih d₁ hinv₁
      refine ⟨d', ?_, hinv'⟩
      simp [run_checks, h₁, h']

theorem first_step_healthInv (N : Nat) (hN : 0 < N) (p : Bool) :
    ∃ d₁, process_health_check (initState N) p = some d₁ ∧ healthInv N d₁ := by
  cases p
  · refine ⟨⟨0, (N : Int), some (N : Int), some false⟩, ?_, (N : Int), false, rfl, by omega, by omega⟩
    have hz : ¬ ((N : Int) = 0) := by omega
    simp [process_health_check, update_failed_checks, update_healthy, initState, hz]
  · refine ⟨⟨0, (N : Int), some 0, some true⟩, ?_, 0, true, rfl, by omega, by omega⟩
    simp [process_health_check, update_failed_checks, update_healthy, initState]

/-- C3.  Bounded counter: for every finite probe sequence applied from the
initial record (`failed_checks` and `healthy` unset) with configured
positive threshold `N`, the run never crashes and, once at least one probe
has been processed, `failed_checks` is a set integer lying in `[0, N]`.
Quantifying over all sequences covers every prefix, i.e. the bound holds
after each application of the rule. -/
theorem C3_counter_bounded (N : Nat) (hN : 0 < N) (ps : List Bool) :
    ∃ d, run_checks (initState N) ps = some d ∧
      (ps ≠ [] → ∃ fc, d.failed_checks = some fc ∧ 0 ≤ fc ∧ fc ≤ (N : Int)) := by
  cases ps with
  | nil => exact ⟨initState N, rfl, by simp⟩
  | cons p rest =>
      obtain ⟨d₁, h₁, hinv₁⟩ := first_step_healthInv N hN p
      obtain ⟨d', h', hinv'⟩ := run_healthInv N hN rest d₁ hinv₁
      obtain ⟨fc, b, rfl, hb0, hb1⟩ := hinv'
      refine ⟨⟨0, (N : Int), some fc, some b⟩, ?_, fun _ => ⟨fc, rfl, hb0, hb1⟩⟩
      simp [run_checks, h₁, h']

/-- Witness for C3: threshold 1 and the probe sequence [false, true]. -/
theorem C3_counter_bounded_witness :
    ∃ d, run_checks (initState 1) [false, true] = some d ∧
      ([false, true] ≠ [] → ∃ fc, d.failed_checks = some fc ∧ 0 ≤ fc ∧ fc ≤ ((1 : Nat) : Int)) :=
  C3_counter_bounded 1 (by decide) [false, true]

/-- The pair of globals the load-balancing side works on: `turn_server`
(Python `None` or a string) and `turn_data` (an insertion-ordered dict,
modelled as an association list). -/
structure LBState where
  turn_server : Option String
  turn_data : List (String × ServerData)
  deriving Repr, DecidableEq

/-- `random.choice` is modelled by an arbitrary selection function; this is
the only property the proofs use: on a non-empty list it returns a member. -/
def pickSound (pick : List String → String) : Prop :=
  ∀ l : List String, l ≠ [] → pick l ∈ l

/-- `[srv for srv, data in turn_data.items() if data['healthy'] is True]`,
as used in `check_current_server`, `Fallback.random_healthy_server` and
(via truthiness of `None`/`True`/`False`) `LoadBalancer.run`. -/
def healthyServers (td : List (String × ServerData)) : List String :=
  (td.filter (fun sd => sd.2.healthy = some true)).map Prod.fst

/-- `len([0 for v in turn_data.values() if v['healthy'] is False])`. -/
def unhealthyCount (td : List (String × ServerData)) : Nat :=
  (td.filter (fun sd => sd.2.healthy = some false)).length

/-- `Fallback.random_server` (src lines 279-285): choose from the full
registry `turn['addressMapping'].values()` and overwrite `turn_server`. -/
def random_server (pick : List String → String) (reg : List String) (st : LBState) : LBState :=
  { st with turn_server := some (pick reg) }

/-- `Fallback.random_healthy_server` (src lines 287-296): choose from the
currently Healthy endpoints, falling back to `random_server` when none. -/
def random_healthy_server (pick : List String → String) (reg : List String)
    (st : LBState) : LBState :=
  let healthy_servers := healthyServers st.turn_data
  if healthy_servers ≠ [] then { st with turn_server := some (pick healthy_servers) }
  else random_server pick reg st

/-- Python truthiness of the `turn_server` global: `None` and the empty
string are falsy. -/
def truthyServer : Option String → Bool
  | none => false
  | some s => !s.isEmpty

/-- The guard of `HealthCheck.check_current_server` (src lines 68-72):
`turn_server` is truthy, the number of Unhealthy endpoints is in
`range(1, len(turn_data))`, and `turn_server` is not among the Healthy
endpoints. -/
def fastPathCond (st : LBState) : Bool :=
  truthyServer st.turn_server &&
  decide (1 ≤ unhealthyCount st.turn_data ∧ unhealthyCount st.turn_data < st.turn_data.length) &&
  decide (st.turn_server ∉ (healthyServers st.turn_data).map some)

/-- `HealthCheck.check_current_server` (src lines 65-74). -/
def check_current_server (pick : List String → String) (reg : List String)
    (st : LBState) : LBState :=
  if fastPathCond st = true then random_healthy_server pick reg st else st

theorem healthyServers_ne_nil (td : List (String × ServerData))
    (hdet : ∀ sd ∈ td, sd.2.healthy ≠ none)
    (h : unhealthyCount td < td.length) : healthyServers td ≠ [] := by
  induction td with
  | nil => simp [unhealthyCount] at h
  | cons q rest ih =>
      cases hq : q.2.healthy with
      | none => exact absurd hq (hdet q (List.mem_cons_self q rest))
      | some b =>
          cases b
          · have hcount : unhealthyCount (q :: rest) = unhealthyCount rest + 1 := by
              simp [unhealthyCount, List.filter_cons, hq]
            have hlen : (q :: rest).length = rest.length + 1 := rfl
            have hr : unhealthyCount rest < rest.length := by omega
            have ih' := ih (fun sd hsd => hdet sd (List.mem_cons_of_mem q hsd)) hr
            have hsame : healthyServers (q :: rest) = healthyServers rest := by
              simp [healthyServers, List.filter_cons, hq]
            rw [hsame]
            exact ih'
          · simp [healthyServers, List.filter_cons, hq]

/-- C4.  Reactive fast-path: in a state where every endpoint's status is
determined, if the guard of `check_current_server` holds (a truthy active
endpoint, between 1 and total-minus-1 Unhealthy endpoints, active endpoint
not Healthy) then the check overwrites the active endpoint with a member of
the Healthy set, necessarily different from the degraded one; if the guard
fails, the state is returned unchanged. -/
theorem C4_reactive_fast_path (pick : List String → String) (reg : List String) (st : LBState)
    (hp : pickSound pick)
    (hdet : ∀ sd ∈ st.turn_data, sd.2.healthy ≠ none) :
    (fastPathCond st = true →
      ∃ s, (check_current_server pick reg st).turn_server = some s ∧
        s ∈ healthyServers st.turn_data ∧ some s ≠ st.turn_server) ∧
    (fastPathCond st = false → check_current_server pick reg st = st) := by
  constructor
  · intro hc
    have hcond := hc
    simp only [fastPathCond, Bool.and_eq_true, decide_eq_true_eq] at hcond
    obtain ⟨⟨hts, hcnt⟩, hnot⟩ := hcond
    have hne : healthyServers st.turn_data ≠ [] :=
      healthyServers_ne_nil st.turn_data hdet hcnt.2
    refine ⟨pick (healthyServers st.turn_data), ?_, hp _ hne, ?_⟩
    · simp [check_current_server, hc, random_healthy_server, hne]
    · intro heq
      apply hnot
      rw [← heq]
      exact List.mem_map_of_mem some (hp _ hne)
  · intro hc
    simp [check_current_server, hc]

/-- A concrete `random.choice` stand-in: the head of the list. -/
def pick0 (l : List String) : String := l.headD ""

theorem pick0_sound : pickSound pick0 := by
  intro l hl
  cases l with
  | nil => exact absurd rfl hl
  | cons x xs => simp [pick0]

/-- A two-endpoint state whose active endpoint `a` has just turned Unhealthy
while `b` is Healthy. -/
def c4St : LBState :=
  ⟨some "a", [("a", ⟨0, 3, some 3, some false⟩), ("b", ⟨0, 3, some 0, some true⟩)]⟩

/-- Witness for C4 on `c4St`. -/
theorem C4_reactive_fast_path_witness :
    ∃ s, (check_current_server pick0 ["a", "b"] c4St).turn_server = some s ∧
      s ∈ healthyServers c4St.turn_data ∧ some s ≠ c4St.turn_server :=
  (C4_reactive_fast_path pick0 ["a", "b"] c4St pick0_sound (by decide)).1 (by decide)

/-- `statistics.mean`; the program only applies it to non-empty sample
lists, where this equals the Python value exactly. -/
def mean (l : List ℚ) : ℚ := l.sum / (l.length : ℚ)

/-- Python `min` over a list, `none` modelling the `ValueError` on an empty
one. -/
def list_min : List ℚ → Option ℚ
  | [] => none
  | x :: xs => some (xs.foldl min x)

/-- `LoadBalancer.select_server` (src lines 216-228), returning the chosen
server (the write to the `turn_server` global is done by the caller model);
`mean_metrics`, `min_value` and `all_matches` appear inline. -/
def select_server (pick : List String → String) (metrics : List (String × List ℚ)) :
    Option String :=
  match list_min ((metrics.map (fun sd => (sd.1, mean sd.2))).map Prod.snd) with
  | none => none
  | some min_value =>
      some (pick (((metrics.map (fun sd => (sd.1, mean sd.2))).filter
        (fun sd => sd.2 = min_value)).map Prod.fst))

theorem foldl_min_le_init (xs : List ℚ) : ∀ x : ℚ, xs.foldl min x ≤ x := by
  induction xs with
  | nil => intro x; exact le_refl x
  | cons y ys ih => intro x; exact le_trans (ih (min x y)) (min_le_left x y)

theorem foldl_min_mem (xs : List ℚ) : ∀ x : ℚ, xs.foldl min x = x ∨ xs.foldl min x ∈ xs := by
  induction xs with
  | nil => intro x; exact Or.inl rfl
  | cons y ys ih =>
      intro x
      rcases ih (min x y) with h | h
      · rcases min_choice x y with hm | hm
        · exact Or.inl (by rw [List.foldl_cons, h, hm])
        · refine Or.inr ?_
          rw [List.foldl_cons, h, hm]
          exact List.mem_cons_self y ys
      · refine Or.inr (List.mem_cons_of_mem y ?_)
        rw [List.foldl_cons]
        exact h

theorem foldl_min_le_mem (xs : List ℚ) : ∀ (x y : ℚ), y ∈ xs → xs.foldl min x ≤ y := by
  induction xs with
  | nil => intro x y h; cases h
  | cons z zs ih =>
      intro x y hy
      rw [List.foldl_cons]
      rcases List.mem_cons.mp hy with rfl | hy'
      · exact le_trans (foldl_min_le_init zs (min x y)) (min_le_right x y)
      · exact ih (min x z) y hy'

theorem list_min_mem (l : List ℚ) (m : ℚ) (h : list_min l = some m) : m ∈ l := by
  cases l with
  | nil => simp [list_min] at h
  | cons x xs =>
      simp only [list_min, Option.some.injEq] at h
      subst h
      rcases foldl_min_mem xs x with h' | h'
      · rw [h']
        exact List.mem_cons_self x xs
      · exact List.mem_cons_of_mem x h'

theorem list_min_le (l : List ℚ) (m : ℚ) (h : list_min l = some m) : ∀ y ∈ l, m ≤ y := by
  cases l with
  | nil => simp [list_min] at h
  | cons x xs =>
      simp only [list_min, Option.some.injEq] at h
      subst h
      intro y hy
      rcases List.mem_cons.mp hy with rfl | hy'
      · exact foldl_min_le_init xs y
      · exact foldl_min_le_mem xs x y hy'

theorem nodup_keys_eq {β : Type} (l : List (String × β)) (h : (l.map Prod.fst).Nodup)
    {a : String} {b c : β} (h1 : (a, b) ∈ l) (h2 : (a, c) ∈ l) : b = c := by
  induction l with
  | nil => cases h1
  | cons q rest ih =>
      rw [List.map_cons, List.nodup_cons] at h
      rcases List.mem_cons.mp h1 with rfl | h1'
      · rcases List.mem_cons.mp h2 with h2h | h2'
        · have := (Prod.mk.injEq a c a b).mp h2h
          exact this.2.symm
        · exact absurd (List.mem_map_of_mem Prod.fst h2') h.1
      · rcases List.mem_cons.mp h2 with rfl | h2'
        · exact absurd (List.mem_map_of_mem Prod.fst h1') h.1
        · exact ih h.2 h1' h2'

theorem select_server_some (pick : List String → String) (metrics : List (String × List ℚ))
    (hne : metrics ≠ []) : ∃ s, select_server pick metrics = some s := by
  obtain ⟨x, xs, rfl⟩ : ∃ x xs, metrics = x :: xs := by
    cases metrics with
    | nil => exact absurd rfl hne
    | cons x xs => exact ⟨x, xs, rfl⟩
  exact ⟨_, rfl⟩

theorem select_server_min (pick : List String → String) (metrics : List (String × List ℚ))
    (hp : pickSound pick) (s : String) (hsel : select_server pick metrics = some s) :
    ∃ samples, (s, samples) ∈ metrics ∧ ∀ sd ∈ metrics, mean samples ≤ mean sd.2 := by
  unfold select_server at hsel
  cases hmv : list_min ((metrics.map (fun sd => (sd.1, mean sd.2))).map Prod.snd) with
  | none => rw [hmv] at hsel; simp at hsel
  | some mv =>
      rw [hmv] at hsel
      simp only [Option.some.injEq] at hsel
      have hAne : (((metrics.map (fun sd => (sd.1, mean sd.2))).filter
          (fun sd => sd.2 = mv)).map Prod.fst) ≠ [] := by
        have hmem := list_min_mem _ mv hmv
        obtain ⟨q, hq, hqv⟩ := List.mem_map.mp hmem
        intro hnil
        have hqf : q ∈ (metrics.map (fun sd => (sd.1, mean sd.2))).filter
            (fun sd => sd.2 = mv) :=
          List.mem_filter.mpr ⟨hq, by simp [hqv]⟩
        have hin := List.mem_map_of_mem Prod.fst hqf
        rw [hnil] at hin
        cases hin
      have hpick := hp _ hAne
      rw [hsel] at hpick
      obtain ⟨q', hq', hq'1⟩ := List.mem_map.mp hpick
      have hq'f := List.mem_filter.mp hq'
      obtain ⟨sd0, hsd0, hsd0e⟩ := List.mem_map.mp hq'f.1
      refine ⟨sd0.2, ?_, ?_⟩
      · have hs1 : sd0.1 = s := by rw [← hq'1, ← hsd0e]
        rw [← hs1]
        simpa using hsd0
      · intro sd hsd
        have h1 : mean sd0.2 = mv := by
          have h2 : q'.2 = mv := by simpa using hq'f.2
          rw [← h2, ← hsd0e]
        have h2 : mean sd.2 ∈ (metrics.map (fun sd => (sd.1, mean sd.2))).map Prod.snd := by
          have h3 : (sd.1, mean sd.2) ∈ metrics.map (fun sd => (sd.1, mean sd.2)) :=
            List.mem_map_of_mem _ hsd
          exact List.mem_map_of_mem Prod.snd h3
        rw [h1]
        exact list_min_le _ mv hmv _ h2

/-- C5.  Minimum-mean selection: on a non-empty metrics map with non-empty
sample lists and (as for a Python dict) pairwise-distinct keys,
`select_server` chooses a server whose samples attain the globally minimum
arithmetic mean; a server with a strictly larger mean is never chosen. -/
theorem C5_min_mean_selection (pick : List String → String) (metrics : List (String × List ℚ))
    (hp : pickSound pick) (hne : metrics ≠ [])
    (hsam : ∀ sd ∈ metrics, sd.2 ≠ [])
    (hkeys : (metrics.map Prod.fst).Nodup) :
    ∃ s samples, select_server pick metrics = some s ∧ (s, samples) ∈ metrics ∧
      (∀ sd ∈ metrics, mean samples ≤ mean sd.2) ∧
      (∀ sd ∈ metrics, mean samples < mean sd.2 → s ≠ sd.1) := by
  obtain ⟨s, hsel⟩ := select_server_some pick metrics hne
  obtain ⟨samples, hmem, hmin⟩ := select_server_min pick metrics hp s hsel
  refine ⟨s, samples, hsel, hmem, hmin, ?_⟩
  intro sd hsd hlt heq
  have hsd' : (s, sd.2) ∈ metrics := by
    rw [heq]
    simpa using hsd
  have hbc : samples = sd.2 := nodup_keys_eq metrics hkeys hmem hsd'
  rw [hbc] at hlt
  exact lt_irrefl _ hlt

/-- The spec's metric-selection example: endpoints a, b, c with means 10, 5, 5. -/
def c5Metrics : List (String × List ℚ) := [("a", [10]), ("b", [5]), ("c", [5])]

/-- Witness for C5 on `c5Metrics`. -/
theorem C5_min_mean_selection_witness :
    ∃ s samples, select_server pick0 c5Metrics = some s ∧ (s, samples) ∈ c5Metrics ∧
      (∀ sd ∈ c5Metrics, mean samples ≤ mean sd.2) ∧
      (∀ sd ∈ c5Metrics, mean samples < mean sd.2 → s ≠ sd.1) :=
  C5_min_mean_selection pick0 c5Metrics pick0_sound (by decide) (by decide) (by decide)

/-- One element of a Prometheus `query_range` result: a label map (a Python
dict, ordered) and a list of `(timestamp, value)` pairs; the `float(...)`
parse of the value string is modelled by storing the rational directly. -/
structure Series where
  metric : List (String × String)
  values : List (Int × ℚ)
  deriving Repr, DecidableEq

/-- Assignment `values_dict[k] = v` on a Python dict modelled as an
association list: overwrite an existing key in place, else append. -/
def dictInsert (d : List (String × List ℚ)) (k : String) (v : List ℚ) :
    List (String × List ℚ) :=
  if d.any (fun kv => kv.1 = k) then
    d.map (fun kv => if kv.1 = k then (k, v) else kv)
  else d ++ [(k, v)]

/-- The label-identification loop of `LoadBalancer.process_metrics`
(src lines 199-203): the first `(label, value)` pair of the series' label
dict whose value is a registry endpoint (`turn['addressMapping'].values()`).
Since the labels form a Python dict, looking the found label name up again
returns this pair's value. -/
def seriesLabel (reg : List String) (sm : Series) : Option (String × String) :=
  sm.metric.find? (fun lv => decide (lv.2 ∈ reg))

/-- The loop body of `LoadBalancer.process_metrics` over the remaining
series, carrying the accumulated `values_dict`; `none` models the
`raise Exception(...)` for a series with no recognizable endpoint label,
which aborts the whole call. -/
def process_metrics_aux (D : Nat) (reg : List String) (acc : List (String × List ℚ)) :
    List Series → Option (List (String × List ℚ))
  | [] => some acc
  | sm :: rest =>
      match seriesLabel reg sm with
      | none => none
      | some lv =>
          if (sm.values.map Prod.snd).length < D then
            process_metrics_aux D reg acc rest
          else
            process_metrics_aux D reg (dictInsert acc lv.2 (sm.values.map Prod.snd)) rest

/-- `LoadBalancer.process_metrics` (src lines 194-214) with
`D = self.loadbalancer['durationMinutes']` and `reg` the registry. -/
def process_metrics (D : Nat) (reg : List String) (qr : List Series) :
    Option (List (String × List ℚ)) :=
  process_metrics_aux D reg [] qr

/-- The endpoint a series is identified with, if any. -/
def seriesKey (reg : List String) (sm : Series) : Option String :=
  (seriesLabel reg sm).map Prod.snd

/-- The `values_dict` entry a series contributes: none when its label is
unrecognized or its sample count is below `D`. -/
def keptEntry (D : Nat) (reg : List String) (sm : Series) : Option (String × List ℚ) :=
  match seriesLabel reg sm with
  | none => none
  | some lv =>
      if (sm.values.map Prod.snd).length < D then none
      else some (lv.2, sm.values.map Prod.snd)

theorem dictInsert_of_not_mem (d : List (String × List ℚ)) (k : String) (v : List ℚ)
    (h : k ∉ d.map Prod.fst) : dictInsert d k v = d ++ [(k, v)] := by
  unfold dictInsert
  rw [if_neg]
  intro hany
  obtain ⟨kv, hkv, hkve⟩ := List.any_eq_true.mp hany
  apply h
  have : kv.1 = k := by simpa using hkve
  rw [← this]
  exact List.mem_map_of_mem Prod.fst hkv

theorem process_metrics_aux_eq (D : Nat) (reg : List String) :
    ∀ (qr : List Series) (acc out : List (String × List ℚ)),
      (∀ k ∈ acc.map Prod.fst, k ∉ qr.filterMap (seriesKey reg)) →
      (qr.filterMap (seriesKey reg)).Nodup →
      process_metrics_aux D reg acc qr = some out →
      out = acc ++ qr.filterMap (keptEntry D reg) := by
  intro qr
  induction qr with
  | nil =>
      intro acc out _ _ h
      simp only [process_metrics_aux, Option.some.injEq] at h
      simp [← h]
  | cons sm rest ih =>
      intro acc out hdisj hnodup h
      cases hsl : seriesLabel reg sm with
      | none =>
          simp only [process_metrics_aux, hsl] at h
          exact Option.noConfusion h
      | some lv =>
          have hkey : seriesKey reg sm = some lv.2 := by simp [seriesKey, hsl]
          rw [List.filterMap_cons_some hkey] at hdisj hnodup
          rw [List.nodup_cons] at hnodup
          simp only [process_metrics_aux, hsl] at h
          by_cases hlen : (sm.values.map Prod.snd).length < D
          · rw [if_pos hlen] at h
            have hkept : keptEntry D reg sm = none := by
              simp [keptEntry, hsl, hlen]
              simpa using hlen
            have ih' := ih acc out
              (fun k hk hmem => hdisj k hk (List.mem_cons_of_mem _ hmem)) hnodup.2 h
            rw [ih', List.filterMap_cons_none hkept]
          · rw [if_neg hlen] at h
            have hkept : keptEntry D reg sm = some (lv.2, sm.values.map Prod.snd) := by
              simp [keptEntry, hsl, hlen]
              simpa using Nat.not_lt.mp hlen
            have hknotin : lv.2 ∉ acc.map Prod.fst :=
              fun hmem => hdisj lv.2 hmem (List.mem_cons_self _ _)
            rw [dictInsert_of_not_mem acc lv.2 _ hknotin] at h
            have hdisj' : ∀ k ∈ (acc ++ [(lv.2, sm.values.map Prod.snd)]).map Prod.fst,
                k ∉ rest.filterMap (seriesKey reg) := by
              intro k hk
              rw [List.map_append] at hk
              rcases List.mem_append.mp hk with hk1 | hk2
              · exact fun hmem => hdisj k hk1 (List.mem_cons_of_mem _ hmem)
              · have hke : k = lv.2 := by simpa using hk2
                rw [hke]
                exact hnodup.1
            have ih' := ih _ out hdisj' hnodup.2 h
            rw [ih', List.filterMap_cons_some hkept, List.append_assoc, List.singleton_append]

theorem keptEntry_keys_sub (D : Nat) (reg : List String) (l : List Series) (k : String)
    (hk : k ∈ (l.filterMap (keptEntry D reg)).map Prod.fst) :
    k ∈ l.filterMap (seriesKey reg) := by
  obtain ⟨entry, hentry, hke⟩ := List.mem_map.mp hk
  obtain ⟨sm, hsm, hkept⟩ := List.mem_filterMap.mp hentry
  refine List.mem_filterMap.mpr ⟨sm, hsm, ?_⟩
  unfold keptEntry at hkept
  cases hsl : seriesLabel reg sm with
  | none => rw [hsl] at hkept; cases hkept
  | some lv =>
      rw [hsl] at hkept
      simp only [Option.ite_none_left_eq_some, Option.some.injEq] at hkept
      have he : entry = (lv.2, sm.values.map Prod.snd) := hkept.2.symm
      have hkl : k = lv.2 := by rw [← hke, he]
      rw [hkl]
      simp [seriesKey, hsl]

/-- C6.  Insufficient-data exclusion: when `process_metrics` succeeds and
(as for a real Prometheus result set) the series identify pairwise-distinct
endpoints, every series with fewer than `durationMinutes` samples
contributes no key to the returned map — so it cannot be chosen by the
metric comparison — while every series with at least `durationMinutes`
samples is retained with its full sample list. -/
theorem C6_insufficient_data_exclusion (D : Nat) (reg : List String) (qr : List Series)
    (out : List (String × List ℚ))
    (hout : process_metrics D reg qr = some out)
    (hnodup : (qr.filterMap (seriesKey reg)).Nodup) :
    ∀ sm ∈ qr, ∀ lv, seriesLabel reg sm = some lv →
      ((sm.values.map Prod.snd).length < D → lv.2 ∉ out.map Prod.fst) ∧
      (D ≤ (sm.values.map Prod.snd).length → (lv.2, sm.values.map Prod.snd) ∈ out) := by
  have hout' : out = qr.filterMap (keptEntry D reg) := by
    have h := process_metrics_aux_eq D reg qr [] out (by simp) hnodup hout
    simpa using h
  subst hout'
  intro sm hsm lv hlv
  constructor
  · intro hlen hkmem
    obtain ⟨u, w, rfl⟩ := List.append_of_mem hsm
    have hkey : seriesKey reg sm = some lv.2 := by simp [seriesKey, hlv]
    rw [List.filterMap_append, List.filterMap_cons_some hkey] at hnodup
    rw [List.nodup_append] at hnodup
    obtain ⟨h1, h2, h3⟩ := hnodup
    rw [List.nodup_cons] at h2
    have hnotu : lv.2 ∉ u.filterMap (seriesKey reg) :=
      fun hmem => h3 hmem (List.mem_cons_self _ _)
    have hnotw : lv.2 ∉ w.filterMap (seriesKey reg) := h2.1
    have hkept : keptEntry D reg sm = none := by
      simp [keptEntry, hlv, hlen]
      simpa using hlen
    rw [List.filterMap_append, List.filterMap_cons_none hkept, List.map_append] at hkmem
    rcases List.mem_append.mp hkmem with hk1 | hk2
    · exact hnotu (keptEntry_keys_sub D reg u lv.2 hk1)
    · exact hnotw (keptEntry_keys_sub D reg w lv.2 hk2)
  · intro hlen
    have hkept : keptEntry D reg sm = some (lv.2, sm.values.map Prod.snd) := by
      simp [keptEntry, hlv]
      simpa using hlen
    exact List.mem_filterMap.mpr ⟨sm, hsm, hkept⟩

/-- A series for endpoint a with a single sample. -/
def c6s1 : Series := ⟨[("instance", "a")], [(0, 5)]⟩

/-- A series for endpoint b with two samples. -/
def c6s2 : Series := ⟨[("instance", "b")], [(0, 7), (1, 9)]⟩

/-- Witness for C6 with `durationMinutes = 2`: the 1-sample series for a is
dropped, the 2-sample series for b is kept in full. -/
theorem C6_insufficient_data_exclusion_witness :
    ((c6s1.values.map Prod.snd).length < 2 →
      ("a" : String) ∉ ([(("b" : String), [(7 : ℚ), 9])].map Prod.fst)) ∧
    (2 ≤ (c6s2.values.map Prod.snd).length →
      (("b" : String), c6s2.values.map Prod.snd) ∈ [(("b" : String), [(7 : ℚ), 9])]) :=
  ⟨(C6_insufficient_data_exclusion 2 ["a", "b"] [c6s1, c6s2] [("b", [(7 : ℚ), 9])]
      (by decide) (by decide) c6s1 (by decide) ("instance", "a") (by decide)).1,
   (C6_insufficient_data_exclusion 2 ["a", "b"] [c6s1, c6s2] [("b", [(7 : ℚ), 9])]
      (by decide) (by decide) c6s2 (by decide) ("instance", "b") (by decide)).2⟩

/-- The outcome of `LoadBalancer.get_prometheus_metrics` (src lines 168-192)
as observed by `LoadBalancer.run`: a raised `requests` exception (returned
as the exception object), a non-OK HTTP response (returned as a string), or
the parsed `data.result` list.  `run` only distinguishes list from
non-list, and empty from non-empty. -/
inductive QueryOutcome where
  | transportError : QueryOutcome
  | httpError : QueryOutcome
  | result : List Series → QueryOutcome
  deriving Repr, DecidableEq

/-- One selection cycle of `LoadBalancer.run` (src lines 241-270), entered
after the wait-for-first-health-pass loop; `outcome` abstracts the network
interaction of `get_prometheus_metrics`.  A `none` result models an
uncaught exception (from `process_metrics` or `select_server`) killing the
selection thread. -/
def lb_cycle (pick : List String → String) (reg : List String) (D : Nat)
    (algorithm : String) (outcome : QueryOutcome) (st : LBState) : Option LBState :=
  if algorithm = "random" then some (random_healthy_server pick reg st)
  else
    if healthyServers st.turn_data ≠ [] then
      if (healthyServers st.turn_data).length = 1 then
        some { st with turn_server := some (String.join (healthyServers st.turn_data)) }
      else
        match outcome with
        | QueryOutcome.transportError => some (random_healthy_server pick reg st)
        | QueryOutcome.httpError => some (random_healthy_server pick reg st)
        | QueryOutcome.result qr =>
            if qr ≠ [] then
              match process_metrics D reg qr with
              | none => none
              | some metrics =>
                  if metrics ≠ [] then
                    match select_server pick metrics with
                    | none => none
                    | some s => some { st with turn_server := some s }
                  else some (random_healthy_server pick reg st)
            else some (random_healthy_server pick reg st)
    else some (random_server pick reg st)

/-- C7.  Metrics-failure fallback: in metric-driven mode with at least two
Healthy endpoints, a transport error, a non-OK HTTP response or an empty
result list all make the cycle perform a random-healthy selection — the
cycle succeeds and writes some currently Healthy endpoint. -/
theorem C7_metrics_failure_fallback (pick : List String → String) (reg : List String)
    (D : Nat) (algorithm : String) (outcome : QueryOutcome) (st : LBState)
    (hp : pickSound pick) (halg : algorithm ≠ "random")
    (hh : 2 ≤ (healthyServers st.turn_data).length)
    (hfail : outcome = QueryOutcome.transportError ∨ outcome = QueryOutcome.httpError ∨
      outcome = QueryOutcome.result []) :
    ∃ s, lb_cycle pick reg D algorithm outcome st =
        some { st with turn_server := some s } ∧
      s ∈ healthyServers st.turn_data := by
  have hne : healthyServers st.turn_data ≠ [] := by
    intro h0
    rw [h0] at hh
    simp at hh
  have hlen : ¬ ((healthyServers st.turn_data).length = 1) := by omega
  refine ⟨pick (healthyServers st.turn_data), ?_, hp _ hne⟩
  rcases hfail with rfl | rfl | rfl <;>
    simp [lb_cycle, halg, hne, hlen, random_healthy_server]

/-- A two-endpoint state with both endpoints Healthy and no selection yet. -/
def c7St : LBState :=
  ⟨none, [("a", ⟨0, 3, some 0, some true⟩), ("b", ⟨0, 3, some 0, some true⟩)]⟩

/-- Witness for C7 on `c7St` with a transport error. -/
theorem C7_metrics_failure_fallback_witness :
    ∃ s, lb_cycle pick0 ["a", "b"] 1 "metrics" QueryOutcome.transportError c7St =
        some { c7St with turn_server := some s } ∧
      s ∈ healthyServers c7St.turn_data :=
  C7_metrics_failure_fallback pick0 ["a", "b"] 1 "metrics" QueryOutcome.transportError c7St
    pick0_sound (by decide) (by decide) (Or.inl rfl)

/-- A series none of whose label values is a registry endpoint. -/
def c8Series : Series := ⟨[("lbl", "zzz")], [(0, 1)]⟩

/-- C8 as stated is false: with two Healthy endpoints and a metrics result
whose only series carries no recognizable endpoint label,
`process_metrics` raises (modelled by `none`) and `LoadBalancer.run` does
not catch the exception, so the cycle produces no new state at all — the
selection loop terminates instead of recovering with
`random_healthy_server`. -/
theorem C8_counterexample :
    process_metrics 1 ["a", "b"] [c8Series] = none ∧
    lb_cycle pick0 ["a", "b"] 1 "metrics" (QueryOutcome.result [c8Series]) c7St = none := by
  constructor
  · decide
  · decide

theorem process_metrics_aux_none (D : Nat) (reg : List String) (sm : Series)
    (hlbl : seriesLabel reg sm = none) :
    ∀ (qr : List Series) (acc : List (String × List ℚ)), sm ∈ qr →
      process_metrics_aux D reg acc qr = none := by
  intro qr
  induction qr with
  | nil => intro acc h; cases h
  | cons hd rest ih =>
      intro acc hmem
      rcases List.mem_cons.mp hmem with rfl | hmem'
      · simp only [process_metrics_aux, hlbl]
      · cases hsl : seriesLabel reg hd with
        | none => simp only [process_metrics_aux, hsl]
        | some lv =>
            simp only [process_metrics_aux, hsl]
            by_cases hlen : (hd.values.map Prod.snd).length < D
            · rw [if_pos hlen]
              exact ih _ hmem'
            · rw [if_neg hlen]
              exact ih _ hmem'

/-- C8, amended.  When some series of a non-empty metrics result has no
label value naming a registry endpoint, `process_metrics` raises the
configuration-error exception (surfacing the query/registry mismatch
loudly); the exception is not caught in `LoadBalancer.run`, so in
metric-driven mode with several Healthy endpoints the selection cycle does
not fall back to a random-healthy selection — it terminates the selection
loop (the supervisor then exits the process). -/
theorem C8_unrecognized_label_fatal (pick : List String → String) (reg : List String)
    (D : Nat) (algorithm : String) (st : LBState) (qr : List Series) (sm : Series)
    (halg : algorithm ≠ "random")
    (hh : 2 ≤ (healthyServers st.turn_data).length)
    (hsm : sm ∈ qr) (hlbl : seriesLabel reg sm = none) :
    process_metrics D reg qr = none ∧
    lb_cycle pick reg D algorithm (QueryOutcome.result qr) st = none := by
  have hpm : process_metrics D reg qr = none :=
    process_metrics_aux_none D reg sm hlbl qr [] hsm
  refine ⟨hpm, ?_⟩
  have hne : healthyServers st.turn_data ≠ [] := by
    intro h0
    rw [h0] at hh
    simp at hh
  have hlen : ¬ ((healthyServers st.turn_data).length = 1) := by omega
  have hqr : qr ≠ [] := by
    intro h0
    rw [h0] at hsm
    cases hsm
  simp [lb_cycle, halg, hne, hlen, hqr, hpm]

/-- Witness for the amended C8 on `c7St` and the unidentifiable series. -/
theorem C8_unrecognized_label_fatal_witness :
    process_metrics 1 ["a", "b"] [c8Series] = none ∧
    lb_cycle pick0 ["a", "b"] 1 "metrics" (QueryOutcome.result [c8Series]) c7St = none :=
  C8_unrecognized_label_fatal pick0 ["a", "b"] 1 "metrics" c7St [c8Series] c8Series
    (by decide) (by decide) (by decide) (by decide)

/-- C9.  Total-outage liveness: when no endpoint is Healthy, the selection
cycle (in either algorithm) still succeeds and writes a registry endpoint
chosen unconditionally, and `random_healthy_server` itself falls back to
the full-registry choice; the active endpoint is never left unset. -/
theorem C9_total_outage_liveness (pick : List String → String) (reg : List String)
    (D : Nat) (algorithm : String) (outcome : QueryOutcome) (st : LBState)
    (hp : pickSound pick) (hreg : reg ≠ [])
    (hzero : healthyServers st.turn_data = []) :
    (∃ s, lb_cycle pick reg D algorithm outcome st =
        some { st with turn_server := some s } ∧ s ∈ reg) ∧
    (∃ s, (random_healthy_server pick reg st).turn_server = some s ∧ s ∈ reg) := by
  have hrh : random_healthy_server pick reg st = random_server pick reg st := by
    simp [random_healthy_server, hzero]
  constructor
  · by_cases halg : algorithm = "random"
    · refine ⟨pick reg, ?_, hp _ hreg⟩
      simp [lb_cycle, halg, hrh, random_server]
    · refine ⟨pick reg, ?_, hp _ hreg⟩
      simp [lb_cycle, halg, hzero, random_server]
  · exact ⟨pick reg, by simp [hrh, random_server], hp _ hreg⟩

/-- An all-unhealthy two-endpoint state. -/
def c9St : LBState :=
  ⟨none, [("a", ⟨0, 3, some 3, some false⟩), ("b", ⟨0, 3, some 3, some false⟩)]⟩

/-- Witness for C9 on `c9St`. -/
theorem C9_total_outage_liveness_witness :
    (∃ s, lb_cycle pick0 ["a", "b"] 1 "metrics" QueryOutcome.transportError c9St =
        some { c9St with turn_server := some s } ∧ s ∈ ["a", "b"]) ∧
    (∃ s, (random_healthy_server pick0 ["a", "b"] c9St).turn_server = some s ∧
      s ∈ ["a", "b"]) :=
  C9_total_outage_liveness pick0 ["a", "b"] 1 "metrics" QueryOutcome.transportError c9St
    pick0_sound (by decide) (by decide)

theorem healthyServers_sub_keys (td : List (String × ServerData)) (s : String)
    (h : s ∈ healthyServers td) : s ∈ td.map Prod.fst := by
  obtain ⟨sd, hsd, hsde⟩ := List.mem_map.mp h
  rw [← hsde]
  exact List.mem_map_of_mem Prod.fst (List.mem_of_mem_filter hsd)

theorem dictInsert_keys_sub (d : List (String × List ℚ)) (k : String) (v : List ℚ)
    (x : String) (hx : x ∈ (dictInsert d k v).map Prod.fst) :
    x ∈ d.map Prod.fst ∨ x = k := by
  unfold dictInsert at hx
  split_ifs at hx with hc
  · obtain ⟨kv, hkvmem, hkve⟩ := List.mem_map.mp hx
    obtain ⟨kv0, hkv0, hkv0e⟩ := List.mem_map.mp hkvmem
    by_cases he : kv0.1 = k
    · right
      rw [← hkve, ← hkv0e, if_pos he]
    · left
      rw [← hkve, ← hkv0e, if_neg he]
      exact List.mem_map_of_mem Prod.fst hkv0
  · rw [List.map_append] at hx
    rcases List.mem_append.mp hx with h1 | h2
    · exact Or.inl h1
    · right
      simpa using h2

theorem process_metrics_keys_sub (D : Nat) (reg : List String) :
    ∀ (qr : List Series) (acc out : List (String × List ℚ)),
      process_metrics_aux D reg acc qr = some out →
      ∀ k ∈ out.map Prod.fst, k ∈ acc.map Prod.fst ∨ k ∈ reg := by
  intro qr
  induction qr with
  | nil =>
      intro acc out h k hk
      simp only [process_metrics_aux, Option.some.injEq] at h
      subst h
      exact Or.inl hk
  | cons sm rest ih =>
      intro acc out h k hk
      cases hsl : seriesLabel reg sm with
      | none =>
          simp only [process_metrics_aux, hsl] at h
          exact Option.noConfusion h
      | some lv =>
          simp only [process_metrics_aux, hsl] at h
          have hlvreg : lv.2 ∈ reg := by
            have hfind : sm.metric.find? (fun lv => decide (lv.2 ∈ reg)) = some lv := hsl
            simpa using List.find?_some hfind
          by_cases hlen : (sm.values.map Prod.snd).length < D
          · rw [if_pos hlen] at h
            exact ih acc out h k hk
          · rw [if_neg hlen] at h
            rcases ih _ out h k hk with hin | hin
            · rcases dictInsert_keys_sub acc lv.2 _ k hin with h1 | h1
              · exact Or.inl h1
              · right
                rw [h1]
                exact hlvreg
            · exact Or.inr hin

theorem select_server_mem (pick : List String → String) (metrics : List (String × List ℚ))
    (hp : pickSound pick) (s : String) (hsel : select_server pick metrics = some s) :
    s ∈ metrics.map Prod.fst := by
  obtain ⟨samples, hmem, _⟩ := select_server_min pick metrics hp s hsel
  exact List.mem_map.mpr ⟨(s, samples), hmem, rfl⟩

theorem join_singleton (s : String) : String.join [s] = s := by
  simp [String.join]

theorem length_one_singleton {α : Type} (l : List α) (h : l.length = 1) : ∃ x, l = [x] := by
  cases l with
  | nil => simp at h
  | cons x xs =>
      cases xs with
      | nil => exact ⟨x, rfl⟩
      | cons y ys => simp at h

theorem random_healthy_server_reg (pick : List String → String) (reg : List String)
    (st : LBState) (hp : pickSound pick) (hreg : reg ≠ [])
    (hkeys : ∀ sd ∈ st.turn_data, sd.1 ∈ reg) :
    ∃ s, (random_healthy_server pick reg st).turn_server = some s ∧ s ∈ reg := by
  by_cases hz : healthyServers st.turn_data = []
  · refine ⟨pick reg, ?_, hp _ hreg⟩
    simp [random_healthy_server, hz, random_server]
  · refine ⟨pick (healthyServers st.turn_data), ?_, ?_⟩
    · simp [random_healthy_server, hz]
    · have hmem := hp _ hz
      have hsub := healthyServers_sub_keys st.turn_data _ hmem
      obtain ⟨sd, hsd, hsde⟩ := List.mem_map.mp hsub
      rw [← hsde]
      exact hkeys sd hsd

/-- C10.  Registry closure: with every `turn_data` key drawn from the
registry, every successful selection cycle — whichever of the four write
sites fires (metric minimum, single-healthy shortcut, random-healthy,
unconditional random) — leaves `turn_server` set to a registry endpoint,
and `check_current_server` either leaves `turn_server` untouched or sets it
to a registry endpoint; hence once the active endpoint is a registry
member it stays one. -/
theorem C10_registry_closure (pick : List String → String) (reg : List String)
    (D : Nat) (algorithm : String) (st : LBState)
    (hp : pickSound pick) (hreg : reg ≠ [])
    (hkeys : ∀ sd ∈ st.turn_data, sd.1 ∈ reg) :
    (∀ (outcome : QueryOutcome) (st' : LBState),
        lb_cycle pick reg D algorithm outcome st = some st' →
        ∃ s, st'.turn_server = some s ∧ s ∈ reg) ∧
    ((check_current_server pick reg st).turn_server = st.turn_server ∨
      ∃ s, (check_current_server pick reg st).turn_server = some s ∧ s ∈ reg) ∧
    (∀ s₀, st.turn_server = some s₀ → s₀ ∈ reg →
      ∃ s, (check_current_server pick reg st).turn_server = some s ∧ s ∈ reg) := by
  have hrh := random_healthy_server_reg pick reg st hp hreg hkeys
  refine ⟨?_, ?_, ?_⟩
  · intro outcome st' h
    unfold lb_cycle at h
    by_cases halg : algorithm = "random"
    · rw [if_pos halg] at h
      have he := Option.some.inj h
      subst he
      exact hrh
    · rw [if_neg halg] at h
      by_cases hz : healthyServers st.turn_data = []
      · rw [if_neg (not_not_intro hz)] at h
        have he := Option.some.inj h
        subst he
        exact ⟨pick reg, rfl, hp _ hreg⟩
      · rw [if_pos hz] at h
        by_cases h1 : (healthyServers st.turn_data).length = 1
        · rw [if_pos h1] at h
          have he := Option.some.inj h
          subst he
          refine ⟨String.join (healthyServers st.turn_data), rfl, ?_⟩
          obtain ⟨x, hx⟩ := length_one_singleton _ h1
          rw [hx, join_singleton]
          have hxmem : x ∈ healthyServers st.turn_data := by
            rw [hx]
            exact List.mem_cons_self x []
          have hsub := healthyServers_sub_keys st.turn_data x hxmem
          obtain ⟨sd, hsd, hsde⟩ := List.mem_map.mp hsub
          rw [← hsde]
          exact hkeys sd hsd
        · rw [if_neg h1] at h
          cases outcome with
          | transportError =>
              have he := Option.some.inj h
              subst he
              exact hrh
          | httpError =>
              have he := Option.some.inj h
              subst he
              exact hrh
          | result qr =>
              have h2 : (if qr ≠ [] then
                  match process_metrics D reg qr with
                  | none => none
                  | some metrics =>
                      if metrics ≠ [] then
                        match select_server pick metrics with
                        | none => none
                        | some s => some { st with turn_server := some s }
                      else some (random_healthy_server pick reg st)
                else some (random_healthy_server pick reg st)) = some st' := h
              clear h
              by_cases hq : qr = []
              · rw [if_neg (not_not_intro hq)] at h2
                have he := Option.some.inj h2
                subst he
                exact hrh
              · rw [if_pos hq] at h2
                cases hpm : process_metrics D reg qr with
                | none =>
                    rw [hpm] at h2
                    exact Option.noConfusion h2
                | some metrics =>
                    rw [hpm] at h2
                    have h3 : (if metrics ≠ [] then
                        match select_server pick metrics with
                        | none => none
                        | some s => some { st with turn_server := some s }
                      else some (random_healthy_server pick reg st)) = some st' := h2
                    clear h2
                    by_cases hm : metrics = []
                    · rw [if_neg (not_not_intro hm)] at h3
                      have he := Option.some.inj h3
                      subst he
                      exact hrh
                    · rw [if_pos hm] at h3
                      cases hsel : select_server pick metrics with
                      | none =>
                          rw [hsel] at h3
                          exact Option.noConfusion h3
                      | some s =>
                          rw [hsel] at h3
                          have he := Option.some.inj h3
                          subst he
                          refine ⟨s, rfl, ?_⟩
                          have hsm := select_server_mem pick metrics hp s hsel
                          have hpm' : process_metrics_aux D reg [] qr = some metrics := hpm
                          rcases process_metrics_keys_sub D reg qr [] metrics hpm' s hsm
                            with h0 | h0
                          · simp at h0
                          · exact h0
  · unfold check_current_server
    by_cases hc : fastPathCond st = true
    · rw [if_pos hc]
      exact Or.inr hrh
    · rw [if_neg hc]
      exact Or.inl rfl
  · intro s₀ hs₀ hs₀reg
    unfold check_current_server
    by_cases hc : fastPathCond st = true
    · rw [if_pos hc]
      exact hrh
    · rw [if_neg hc]
      exact ⟨s₀, hs₀, hs₀reg⟩

/-- Witness for C10: the metric-mode cycle on `c4St` (single Healthy
endpoint b) writes the registry endpoint b. -/
theorem C10_registry_closure_witness :
    ∃ s, (LBState.mk (some "b") c4St.turn_data).turn_server = some s ∧ s ∈ ["a", "b"] :=
  (C10_registry_closure pick0 ["a", "b"] 1 "metrics" c4St pick0_sound (by decide)
      (by decide)).1 QueryOutcome.transportError (LBState.mk (some "b") c4St.turn_data)
    (by decide)
